import Mathlib

/-!
Shallow embedding of the options-monitor pipeline (`src/app.py`).

The pipeline has three layers:
* `get_options_data` — the Chain Retriever: queries a provider for price,
  expiration dates and per-expiration call/put records, aggregates them,
  and returns absence (`none`) when no usable data exists;
* `analyze_options` — the Analytics Reducer: reduces a `ChainSnapshot`
  into a `SymbolAnalysis`;
* `scan_multiple` — the Batch Reducer: runs the pipeline per symbol,
  applies the flagging thresholds and computes a `BatchSummary`.

Numbers are embedded as `ℚ` (prices, ratios, implied volatilities) and
`ℕ` (volumes and open interest, integers ≥ 0 per the data model, with a
missing — NaN in the pandas frame — value embedded as `none`).
Python's `round(x, d)` is modelled by `roundTo d` over `ℚ`.
-/

namespace OptionsMonitor

/-- Rounding to `d` decimal places: model of Python's `round(x, d)` over `ℚ`
(rounding to the nearest multiple of `10^(-d)`). -/
def roundTo (d : ℕ) (q : ℚ) : ℚ := (round (q * (10 : ℚ) ^ d) : ℚ) / (10 : ℚ) ^ d

/-- One option-chain row (one strike, one expiration, one side).
`volume`, `openInterest` and `impliedVolatility` are `none` when the
provider's frame holds NaN in that cell. -/
structure OptionRecord where
  strike : ℚ
  lastPrice : ℚ
  volume : Option ℕ
  openInterest : Option ℕ
  impliedVolatility : Option ℚ
  expiration : String
deriving Repr, DecidableEq

/-- The dict returned by `get_options_data`: the aggregated call and put
frames plus the current price. -/
structure ChainSnapshot where
  calls : List OptionRecord
  puts : List OptionRecord
  current_price : ℚ
deriving Repr, DecidableEq

/-- Projection of a row kept by the top-strikes selection
(`[['strike', 'volume', 'openInterest', 'lastPrice', 'expiration']]`). -/
structure TopStrike where
  strike : ℚ
  volume : Option ℕ
  openInterest : Option ℕ
  lastPrice : ℚ
  expiration : String
deriving Repr, DecidableEq

/-- The dict built by `analyze_options` (the `timestamp` field, wall-clock
time, is outside the embedding). -/
structure SymbolAnalysis where
  symbol : String
  currentPrice : ℚ
  callVolume : ℕ
  putVolume : ℕ
  ratio : ℚ
  callOpenInterest : ℕ
  putOpenInterest : ℕ
  impliedVol : ℚ
  avgPutIV : ℚ
  topCallStrikes : List TopStrike
  topPutStrikes : List TopStrike
  callVolumeByExpiration : List (String × ℕ)
  putVolumeByExpiration : List (String × ℕ)
deriving Repr, DecidableEq

/-- `volume` with NaN as 0: the reduction `df['volume'].fillna(0)`. -/
def volKey (r : OptionRecord) : ℕ := r.volume.getD 0

/-- `openInterest` with NaN as 0: the reduction `df['openInterest'].fillna(0)`. -/
def oiKey (r : OptionRecord) : ℕ := r.openInterest.getD 0

/-- Insert `r` into a volume-descending list, before the first row whose
volume does not exceed `r`'s (so an earlier row precedes equal-volume rows). -/
def insertByVol (r : OptionRecord) : List OptionRecord → List OptionRecord
  | [] => [r]
  | x :: xs => if volKey x ≤ volKey r then r :: x :: xs else x :: insertByVol r xs

/-- Stable sort by descending volume (insertion sort), the ordering
`nlargest(n, 'volume')` applies after dropping NaN-volume rows. -/
def sortByVolDesc : List OptionRecord → List OptionRecord
  | [] => []
  | x :: xs => insertByVol x (sortByVolDesc xs)

/-- The column projection applied to the top-strikes rows. -/
def projTopStrike (r : OptionRecord) : TopStrike :=
  { strike := r.strike
    volume := r.volume
    openInterest := r.openInterest
    lastPrice := r.lastPrice
    expiration := r.expiration }

/-- `df.nlargest(n, 'volume')[[...]].to_dict('records')`. pandas `nlargest`
takes its slow path when `n ≥ len(frame)` and returns only the non-NaN rows
sorted descending (NaN-volume rows dropped); when the frame has more than
`n` rows it selects the `n` largest among the non-NaN rows (stable: ties
keep first occurrences, in original order) and then pads the tail with the
NaN-volume rows, in original order, cut to exactly `n` rows
(`concat([dropped.iloc[inds], nan_index]).iloc[:n]`, pandas GH 43060). -/
def nlargestByVolume (n : ℕ) (l : List OptionRecord) : List TopStrike :=
  let present := l.filter fun r => r.volume.isSome
  let missing := l.filter fun r => !r.volume.isSome
  if l.length ≤ n then (sortByVolDesc present).map projTopStrike
  else ((sortByVolDesc present ++ missing).take n).map projTopStrike

/-- `df['impliedVolatility'].mean()`: pandas skips NaN cells and yields NaN
(here `none`) when no valid value remains. -/
def meanIV (l : List OptionRecord) : Option ℚ :=
  let v := l.filterMap fun r => r.impliedVolatility
  if v = [] then none else some (v.sum / (v.length : ℚ))

/-- `df.groupby('expiration')['volume'].sum().to_dict()` with `int(v)` on the
values: one key per distinct expiration, each value the NaN-as-0 volume sum
of that expiration's rows. -/
def volumeByExpiration (l : List OptionRecord) : List (String × ℕ) :=
  ((l.map fun r => r.expiration).dedup).map fun k =>
    (k, ((l.filter fun r => r.expiration = k).map volKey).sum)

/-- `OptionsDataFetcher.analyze_options` (src/app.py:110-156). -/
def analyze_options (symbol : String) (data : ChainSnapshot) : SymbolAnalysis :=
  let total_call_volume := (data.calls.map volKey).sum
  let total_put_volume := (data.puts.map volKey).sum
  let total_call_oi := (data.calls.map oiKey).sum
  let total_put_oi := (data.puts.map oiKey).sum
  let call_put_ratio :=
    if 0 < total_put_volume then
      roundTo 2 ((total_call_volume : ℚ) / (total_put_volume : ℚ))
    else 0
  let avg_call_iv := meanIV data.calls
  let avg_put_iv := meanIV data.puts
  { symbol := symbol
    currentPrice := data.current_price
    callVolume := total_call_volume
    putVolume := total_put_volume
    ratio := call_put_ratio
    callOpenInterest := total_call_oi
    putOpenInterest := total_put_oi
    impliedVol := match avg_call_iv with | some m => roundTo 4 m | none => 0
    avgPutIV := match avg_put_iv with | some m => roundTo 4 m | none => 0
    topCallStrikes := nlargestByVolume 5 data.calls
    topPutStrikes := nlargestByVolume 5 data.puts
    callVolumeByExpiration := volumeByExpiration data.calls
    putVolumeByExpiration := volumeByExpiration data.puts }

/-- The external market-data provider, as `get_options_data` consumes it:
`dailyClose` is the latest daily close (`ticker.history`, `none` when empty
or failing), `quotePrice` the real-time quote fallback (`ticker.info`),
`expirations` the `ticker.options` tuple, and `chain e` the per-expiration
`ticker.option_chain(e)` call (`none` when it raises). -/
structure Provider where
  dailyClose : Option ℚ
  quotePrice : Option ℚ
  expirations : List String
  chain : String → Option (List OptionRecord × List OptionRecord)

/-- The price-resolution ladder (src/app.py:44-54): daily close, else quote,
else the sentinel 0 — price failure is non-fatal. -/
def currentPriceOf (p : Provider) : ℚ :=
  ((p.dailyClose).orElse fun _ => p.quotePrice).getD 0

/-- The per-expiration fetch loop (src/app.py:68-89): for each of the first
`min(4, count)` expirations, fetch the chain; a raising fetch or an empty
side skips that expiration; kept rows are tagged with their expiration. -/
def fetchedChains (p : Provider) : List (List OptionRecord × List OptionRecord) :=
  (p.expirations.take 4).filterMap fun e =>
    match p.chain e with
    | none => none
    | some (cs, ps) =>
      if cs = [] ∨ ps = [] then none
      else some (cs.map fun r => { r with expiration := e },
                 ps.map fun r => { r with expiration := e })

/-- `pd.concat(all_calls)`: the aggregate calls collection. -/
def aggCalls (p : Provider) : List OptionRecord :=
  ((fetchedChains p).map Prod.fst).flatten

/-- `pd.concat(all_puts)`: the aggregate puts collection. -/
def aggPuts (p : Provider) : List OptionRecord :=
  ((fetchedChains p).map Prod.snd).flatten

/-- `OptionsDataFetcher.get_options_data` (src/app.py:24-106). The second
component records which expirations had a chain fetch attempted, so that
"returns Absent without attempting any chain fetch" is statable. -/
def get_options_data (p : Provider) : Option ChainSnapshot × List String :=
  if p.expirations = [] then (none, [])
  else if aggCalls p = [] ∨ aggPuts p = [] then (none, p.expirations.take 4)
  else (some { calls := aggCalls p
               puts := aggPuts p
               current_price := currentPriceOf p },
        p.expirations.take 4)

/-- The `/api/scan/<symbol>` handler's pipeline (src/app.py:179-195):
uppercase the symbol, fetch, 404 (`none`) on absence, else analyze. -/
def scan_symbol (p : Provider) (symbol : String) : Option SymbolAnalysis :=
  match (get_options_data p).fst with
  | none => none
  | some d => some (analyze_options symbol.toUpper d)

/-- One entry of the batch `results` list: a successful analysis with its
`flagged` bit, or the error entry `{'symbol': ..., 'error': ..., 'flagged': False}`. -/
inductive ScanEntry where
  | ok (a : SymbolAnalysis) (flagged : Bool)
  | err (symbol : String)
deriving Repr, DecidableEq

/-- `'error' not in r`: whether an entry is a successful analysis. -/
def entryIsOk : ScanEntry → Bool
  | .ok _ _ => true
  | .err _ => false

/-- `r.get('flagged', False)`. -/
def entryFlagged : ScanEntry → Bool
  | .ok _ f => f
  | .err _ => false

/-- `r['ratio']` (only read on successful entries). -/
def entryRatio : ScanEntry → ℚ
  | .ok a _ => a.ratio
  | .err _ => 0

/-- The batch `summary` dict (its `timestamp` is outside the embedding). -/
structure BatchSummary where
  totalScanned : ℕ
  successfulScans : ℕ
  flaggedCount : ℕ
  avgRatio : ℚ
deriving Repr, DecidableEq

/-- The per-symbol body of the batch loop (src/app.py:215-246): normalize,
fetch, error entry on absence, else analyze and flag against the two
thresholds. -/
def scanOne (world : String → Provider) (cvt rvt : ℚ) (s : String) : ScanEntry :=
  let sym := s.toUpper.trim
  match (get_options_data (world sym)).fst with
  | none => .err sym
  | some d =>
    let a := analyze_options sym d
    .ok a (decide (cvt ≤ (a.callVolume : ℚ) ∧ rvt ≤ a.ratio))

/-- The summary block (src/app.py:248-256). -/
def summarize (results : List ScanEntry) : BatchSummary :=
  let valid := results.filter entryIsOk
  { totalScanned := results.length
    successfulScans := valid.length
    flaggedCount := (valid.filter entryFlagged).length
    avgRatio :=
      if valid = [] then 0
      else roundTo 2 ((valid.map entryRatio).sum / (valid.length : ℚ)) }

/-- The `/api/scan-multiple` handler (src/app.py:201-261): `none` is the
400 response for an empty symbol list; the thresholds default to 5000 and
2.0 when the request omits them (`data.get(..., default)`). `world` maps
each (normalized) symbol to its provider view. -/
def scan_multiple (world : String → Provider) (symbols : List String)
    (cvtOpt rvtOpt : Option ℚ) : Option (BatchSummary × List ScanEntry) :=
  if symbols = [] then none
  else
    let results := symbols.map (scanOne world (cvtOpt.getD 5000) (rvtOpt.getD 2))
    some (summarize results, results)

/-- A sample call row (present volume) for concrete instantiations. -/
def wCallRec : OptionRecord :=
  { strike := 100
    lastPrice := 5/2
    volume := some 6000
    openInterest := some 10
    impliedVolatility := some (3/10)
    expiration := "2026-01-16" }

/-- A sample put row (present volume, missing IV) for concrete instantiations. -/
def wPutRec : OptionRecord :=
  { strike := 90
    lastPrice := 3/2
    volume := some 1000
    openInterest := some 7
    impliedVolatility := none
    expiration := "2026-01-16" }

/-- A provider with one expiration and one non-empty chain. -/
def wProvider : Provider :=
  { dailyClose := some 101
    quotePrice := none
    expirations := ["2026-01-16"]
    chain := fun _ => some ([wCallRec], [wPutRec]) }

/-- The snapshot `wProvider` yields. -/
def wSnap : ChainSnapshot :=
  { calls := [wCallRec], puts := [wPutRec], current_price := 101 }

/-- `wProvider` with both price sources unavailable. -/
def wProviderNoPrice : Provider :=
  { wProvider with dailyClose := none, quotePrice := none }

/-- The snapshot `wProviderNoPrice` yields: price falls back to the sentinel 0. -/
def wSnapNoPrice : ChainSnapshot :=
  { wSnap with current_price := 0 }

/-- A provider with an empty expiration list. -/
def wProviderNoExp : Provider :=
  { wProvider with expirations := [] }

/-- A provider whose only chain fetch returns an empty calls side. -/
def wProviderEmptySide : Provider :=
  { wProvider with chain := fun _ => some ([], [wPutRec]) }

/-- A one-symbol world for batch instantiations. -/
def wWorld : String → Provider := fun _ => wProvider

/-- The single batch entry the world `wWorld` produces for "aapl". -/
def wEntry : ScanEntry := scanOne wWorld 5000 2 "aapl"

/-- The analysis inside `wEntry`. -/
def wAnalysis : SymbolAnalysis := analyze_options ("aapl".toUpper.trim) wSnap

/-- The flag bit inside `wEntry`. -/
def wFlag : Bool := entryFlagged wEntry

/-- A call row with missing (NaN) volume, input of the C5 counterexample. -/
def cexCallRec : OptionRecord :=
  { strike := 50
    lastPrice := 1
    volume := none
    openInterest := some 3
    impliedVolatility := some (1/5)
    expiration := "2026-02-20" }

/-- A snapshot whose single call row has missing volume. -/
def cexSnap : ChainSnapshot :=
  { calls := [cexCallRec], puts := [wPutRec], current_price := 10 }

/-! ## Field characterizations of `analyze_options` (all definitional) -/

theorem callVolume_eq (sym : String) (d : ChainSnapshot) :
    (analyze_options sym d).callVolume = (d.calls.map volKey).sum := rfl

theorem putVolume_eq (sym : String) (d : ChainSnapshot) :
    (analyze_options sym d).putVolume = (d.puts.map volKey).sum := rfl

theorem callOpenInterest_eq (sym : String) (d : ChainSnapshot) :
    (analyze_options sym d).callOpenInterest = (d.calls.map oiKey).sum := rfl

theorem putOpenInterest_eq (sym : String) (d : ChainSnapshot) :
    (analyze_options sym d).putOpenInterest = (d.puts.map oiKey).sum := rfl

theorem ratio_eq (sym : String) (d : ChainSnapshot) :
    (analyze_options sym d).ratio =
      if 0 < (d.puts.map volKey).sum then
        roundTo 2 (((d.calls.map volKey).sum : ℚ) / ((d.puts.map volKey).sum : ℚ))
      else 0 := rfl

theorem impliedVol_eq (sym : String) (d : ChainSnapshot) :
    (analyze_options sym d).impliedVol =
      match meanIV d.calls with | some m => roundTo 4 m | none => 0 := rfl

theorem avgPutIV_eq (sym : String) (d : ChainSnapshot) :
    (analyze_options sym d).avgPutIV =
      match meanIV d.puts with | some m => roundTo 4 m | none => 0 := rfl

theorem topCallStrikes_eq (sym : String) (d : ChainSnapshot) :
    (analyze_options sym d).topCallStrikes = nlargestByVolume 5 d.calls := rfl

theorem topPutStrikes_eq (sym : String) (d : ChainSnapshot) :
    (analyze_options sym d).topPutStrikes = nlargestByVolume 5 d.puts := rfl

theorem callVolumeByExpiration_eq (sym : String) (d : ChainSnapshot) :
    (analyze_options sym d).callVolumeByExpiration = volumeByExpiration d.calls := rfl

theorem putVolumeByExpiration_eq (sym : String) (d : ChainSnapshot) :
    (analyze_options sym d).putVolumeByExpiration = volumeByExpiration d.puts := rfl

theorem currentPrice_eq (sym : String) (d : ChainSnapshot) :
    (analyze_options sym d).currentPrice = d.current_price := rfl

/-! ## Rounding -/

theorem roundTo_nonneg (d : ℕ) (q : ℚ) (h : 0 ≤ q) : 0 ≤ roundTo d q := by
  unfold roundTo
  have h2 : (0 : ℤ) ≤ round (q * (10 : ℚ) ^ d) := by
    rw [round_eq]
    refine Int.floor_nonneg.mpr ?_
    have : (0 : ℚ) ≤ q * (10 : ℚ) ^ d := by positivity
    linarith
  have h2q : (0 : ℚ) ≤ (round (q * (10 : ℚ) ^ d) : ℚ) := by exact_mod_cast h2
  positivity

/-- C1: for every analyzed snapshot, `ratio` is `callVolume / putVolume`
rounded to 2 decimal places when `putVolume > 0`, is exactly 0 when
`putVolume = 0` regardless of `callVolume`, and is in every output
well-defined and non-negative (never NaN: it is a total `ℚ` value). -/
theorem ratio_rounded_guarded_nonneg (sym : String) (d : ChainSnapshot) :
    (0 < (analyze_options sym d).putVolume →
      (analyze_options sym d).ratio =
        roundTo 2 (((analyze_options sym d).callVolume : ℚ) /
          ((analyze_options sym d).putVolume : ℚ)))
    ∧ ((analyze_options sym d).putVolume = 0 → (analyze_options sym d).ratio = 0)
    ∧ 0 ≤ (analyze_options sym d).ratio := by
  rw [ratio_eq, putVolume_eq, callVolume_eq]
  refine ⟨fun h => if_pos h, fun h => ?_, ?_⟩
  · rw [if_neg]
    omega
  · split
    · exact roundTo_nonneg _ _ (by positivity)
    · exact le_refl 0

/-- C4: for every snapshot with non-empty sides, `callVolume`/`putVolume` are
the NaN-as-0 volume sums over calls/puts, and the open-interest fields the
same reductions over `openInterest`. -/
theorem volume_and_oi_sums (sym : String) (d : ChainSnapshot)
    (hc : d.calls ≠ []) (hp : d.puts ≠ []) :
    (analyze_options sym d).callVolume = (d.calls.map fun r => r.volume.getD 0).sum
    ∧ (analyze_options sym d).putVolume = (d.puts.map fun r => r.volume.getD 0).sum
    ∧ (analyze_options sym d).callOpenInterest
        = (d.calls.map fun r => r.openInterest.getD 0).sum
    ∧ (analyze_options sym d).putOpenInterest
        = (d.puts.map fun r => r.openInterest.getD 0).sum :=
  ⟨rfl, rfl, rfl, rfl⟩

/-- Witness for C4 at the concrete snapshot `wSnap`. -/
theorem volume_and_oi_sums_witness :
    (analyze_options "AAPL" wSnap).callVolume
        = (wSnap.calls.map fun r => r.volume.getD 0).sum
    ∧ (analyze_options "AAPL" wSnap).putVolume
        = (wSnap.puts.map fun r => r.volume.getD 0).sum
    ∧ (analyze_options "AAPL" wSnap).callOpenInterest
        = (wSnap.calls.map fun r => r.openInterest.getD 0).sum
    ∧ (analyze_options "AAPL" wSnap).putOpenInterest
        = (wSnap.puts.map fun r => r.openInterest.getD 0).sum :=
  volume_and_oi_sums "AAPL" wSnap (by decide) (by decide)

/-- C7: a symbol whose provider expiration list is empty yields Absent with
no chain fetch attempted (the attempted-fetch trace is empty). -/
theorem absent_without_fetch_when_no_expirations (p : Provider)
    (h : p.expirations = []) : get_options_data p = (none, []) := by
  unfold get_options_data
  rw [if_pos h]

/-- Witness for C7 at the concrete provider `wProviderNoExp`. -/
theorem absent_without_fetch_witness :
    get_options_data wProviderNoExp = (none, []) :=
  absent_without_fetch_when_no_expirations wProviderNoExp rfl

/-- C6: a present `ChainSnapshot` has non-empty calls and puts; when either
aggregate collection is empty after all selected expirations are attempted,
the Retriever returns Absent instead. -/
theorem present_snapshot_sides_nonempty (p : Provider) :
    (∀ snap : ChainSnapshot, (get_options_data p).fst = some snap →
        snap.calls ≠ [] ∧ snap.puts ≠ [])
    ∧ (aggCalls p = [] ∨ aggPuts p = [] → (get_options_data p).fst = none) := by
  unfold get_options_data
  split_ifs with h1 h2
  · exact ⟨fun snap h => by simp at h, fun _ => rfl⟩
  · exact ⟨fun snap h => by simp at h, fun _ => rfl⟩
  · rcases not_or.mp h2 with ⟨hc, hp⟩
    refine ⟨fun snap h => ?_, fun h => absurd h h2⟩
    have h3 := Option.some.inj h
    subst h3
    exact ⟨hc, hp⟩

/-- Witness for C6 at the concrete providers `wProvider` (present, both
sides non-empty) and `wProviderEmptySide` (empty aggregate, Absent). -/
theorem present_snapshot_sides_nonempty_witness :
    (wSnap.calls ≠ [] ∧ wSnap.puts ≠ [])
    ∧ (get_options_data wProviderEmptySide).fst = none := by
  constructor
  · exact (present_snapshot_sides_nonempty wProvider).1 wSnap rfl
  · exact (present_snapshot_sides_nonempty wProviderEmptySide).2 (Or.inl rfl)

/-- Price-source fields do not change whether the Retriever finds data. -/
theorem price_fields_independence (p : Provider) (dc qp : Option ℚ) :
    (get_options_data { p with dailyClose := dc, quotePrice := qp }).fst.isSome
      = (get_options_data p).fst.isSome := by
  unfold get_options_data
  have he : ({ p with dailyClose := dc, quotePrice := qp } : Provider).expirations
      = p.expirations := rfl
  have hac : aggCalls { p with dailyClose := dc, quotePrice := qp } = aggCalls p := rfl
  have hap : aggPuts { p with dailyClose := dc, quotePrice := qp } = aggPuts p := rfl
  rw [he, hac, hap]
  split_ifs <;> rfl

/-- C8: with both price sources unavailable but the chain fetch succeeding,
the pipeline still produces the full analysis, its `currentPrice` is the
sentinel 0, and price availability never decides presence or absence. -/
theorem price_failure_nonfatal (p : Provider) (sym : String) (snap : ChainSnapshot)
    (hdc : p.dailyClose = none) (hqp : p.quotePrice = none)
    (h : (get_options_data p).fst = some snap) :
    scan_symbol p sym = some (analyze_options sym.toUpper snap)
    ∧ (analyze_options sym.toUpper snap).currentPrice = 0
    ∧ ∀ dc qp : Option ℚ,
        ((get_options_data { p with dailyClose := dc, quotePrice := qp }).fst).isSome
          = true := by
  refine ⟨?_, ?_, ?_⟩
  · unfold scan_symbol
    rw [h]
  · rw [currentPrice_eq]
    have hcp : snap.current_price = currentPriceOf p := by
      unfold get_options_data at h
      split_ifs at h with h1 h2
      rw [← Option.some.inj h]
    rw [hcp]
    unfold currentPriceOf
    rw [hdc, hqp]
    rfl
  · intro dc qp
    rw [price_fields_independence, h]
    rfl

/-- Witness for C8 at the concrete provider `wProviderNoPrice`. -/
theorem price_failure_nonfatal_witness :
    scan_symbol wProviderNoPrice "aapl"
      = some (analyze_options ("aapl".toUpper) wSnapNoPrice)
    ∧ (analyze_options ("aapl".toUpper) wSnapNoPrice).currentPrice = 0 := by
  have h := price_failure_nonfatal wProviderNoPrice "aapl" wSnapNoPrice rfl rfl rfl
  exact ⟨h.1, h.2.1⟩

/-- Characterization of `meanIV` (definitional). -/
theorem meanIV_eq (l : List OptionRecord) :
    meanIV l =
      if (l.filterMap fun r => r.impliedVolatility) = [] then none
      else some ((l.filterMap fun r => r.impliedVolatility).sum /
        (((l.filterMap fun r => r.impliedVolatility).length : ℚ))) := rfl

/-- C9: `impliedVol` is the arithmetic mean of the present `impliedVolatility`
values over calls rounded to 4 decimal places, `avgPutIV` the same over puts,
and each is 0 when no valid value exists. -/
theorem iv_means_rounded (sym : String) (d : ChainSnapshot) :
    ((d.calls.filterMap fun r => r.impliedVolatility) = [] →
        (analyze_options sym d).impliedVol = 0)
    ∧ ((d.calls.filterMap fun r => r.impliedVolatility) ≠ [] →
        (analyze_options sym d).impliedVol =
          roundTo 4 ((d.calls.filterMap fun r => r.impliedVolatility).sum /
            (((d.calls.filterMap fun r => r.impliedVolatility).length : ℚ))))
    ∧ ((d.puts.filterMap fun r => r.impliedVolatility) = [] →
        (analyze_options sym d).avgPutIV = 0)
    ∧ ((d.puts.filterMap fun r => r.impliedVolatility) ≠ [] →
        (analyze_options sym d).avgPutIV =
          roundTo 4 ((d.puts.filterMap fun r => r.impliedVolatility).sum /
            (((d.puts.filterMap fun r => r.impliedVolatility).length : ℚ)))) := by
  refine ⟨fun h => ?_, fun h => ?_, fun h => ?_, fun h => ?_⟩
  · rw [impliedVol_eq, meanIV_eq d.calls, if_pos h]
  · rw [impliedVol_eq, meanIV_eq d.calls, if_neg h]
  · rw [avgPutIV_eq, meanIV_eq d.puts, if_pos h]
  · rw [avgPutIV_eq, meanIV_eq d.puts, if_neg h]

/-- Indicator sums over a key list: a key not in the list contributes 0. -/
theorem sum_map_ite_not_mem (a : String) (c : ℕ) (ks : List String) (ha : a ∉ ks) :
    (ks.map fun k => if a = k then c else 0).sum = 0 := by
  induction ks with
  | nil => rfl
  | cons k t ih =>
    simp only [List.map_cons, List.sum_cons]
    have h1 : a ≠ k := by
      intro e
      exact ha (e ▸ List.mem_cons_self k t)
    rw [if_neg h1, ih fun m => ha (List.mem_cons_of_mem k m)]

/-- Indicator sums over a duplicate-free key list containing the key. -/
theorem sum_map_ite_mem (a : String) (c : ℕ) (ks : List String)
    (hn : ks.Nodup) (ha : a ∈ ks) :
    (ks.map fun k => if a = k then c else 0).sum = c := by
  induction ks with
  | nil => cases ha
  | cons k t ih =>
    simp only [List.map_cons, List.sum_cons]
    rcases List.mem_cons.mp ha with h | h
    · rw [if_pos h, sum_map_ite_not_mem a c t
        (by subst h; exact (List.nodup_cons.mp hn).1)]
      omega
    · have hak : a ≠ k := by
        intro e
        exact (List.nodup_cons.mp hn).1 (e ▸ h)
      rw [if_neg hak, ih (List.nodup_cons.mp hn).2 h]
      omega

/-- Summing the per-key fiber sums over any duplicate-free key list covering
every row's key yields the total sum. -/
theorem sum_fiberwise_volKey (ks : List String) (hn : ks.Nodup) :
    ∀ l : List OptionRecord, (∀ r ∈ l, r.expiration ∈ ks) →
      (ks.map fun k => ((l.filter fun r => r.expiration = k).map volKey).sum).sum
        = (l.map volKey).sum := by
  intro l
  induction l with
  | nil =>
    intro _
    simp
  | cons r t ih =>
    intro hk
    have hr : r.expiration ∈ ks := hk r (List.mem_cons_self r t)
    have ht : ∀ x ∈ t, x.expiration ∈ ks := fun x hx => hk x (List.mem_cons_of_mem r hx)
    have hfib : ∀ k ∈ ks,
        ((((r :: t).filter fun x => x.expiration = k).map volKey).sum)
          = (if r.expiration = k then volKey r else 0)
            + ((t.filter fun x => x.expiration = k).map volKey).sum := by
      intro k _
      by_cases h : r.expiration = k
      · simp [List.filter_cons, h]
      · simp [List.filter_cons, h]
    rw [List.map_congr_left hfib, List.sum_map_add, ih ht,
      sum_map_ite_mem r.expiration (volKey r) ks hn hr]
    simp

/-- The values of `volumeByExpiration` add up to the total NaN-as-0 volume. -/
theorem volumeByExpiration_total (l : List OptionRecord) :
    ((volumeByExpiration l).map Prod.snd).sum = (l.map volKey).sum := by
  unfold volumeByExpiration
  rw [List.map_map]
  exact sum_fiberwise_volKey _ (List.nodup_dedup _) l
    (fun r hr => List.mem_dedup.mpr (List.mem_map_of_mem _ hr))

/-- C10: the values of `callVolumeByExpiration` sum to `callVolume`, and the
values of `putVolumeByExpiration` sum to `putVolume`. -/
theorem volume_by_expiration_partitions (sym : String) (d : ChainSnapshot) :
    (((analyze_options sym d).callVolumeByExpiration).map Prod.snd).sum
        = (analyze_options sym d).callVolume
    ∧ (((analyze_options sym d).putVolumeByExpiration).map Prod.snd).sum
        = (analyze_options sym d).putVolume := by
  rw [callVolumeByExpiration_eq, putVolumeByExpiration_eq, callVolume_eq, putVolume_eq]
  exact ⟨volumeByExpiration_total d.calls, volumeByExpiration_total d.puts⟩

/-- C2: in a batch scan, every successful entry carries `flagged = true` iff
both `callVolume ≥ callVolThreshold` and `ratio ≥ ratioThreshold` hold
simultaneously, the thresholds defaulting to 5000 and 2.0 when the request
omits them. -/
theorem flagged_iff_thresholds (world : String → Provider) (symbols : List String)
    (cvtOpt rvtOpt : Option ℚ) (out : BatchSummary × List ScanEntry)
    (h : scan_multiple world symbols cvtOpt rvtOpt = some out)
    (a : SymbolAnalysis) (f : Bool) (hm : ScanEntry.ok a f ∈ out.2) :
    f = true ↔ (cvtOpt.getD 5000 ≤ (a.callVolume : ℚ) ∧ rvtOpt.getD 2 ≤ a.ratio) := by
  unfold scan_multiple at h
  split_ifs at h with hs
  have h2 := Option.some.inj h
  obtain ⟨h3, h4⟩ := Prod.mk.inj h2
  rw [← h4] at hm
  obtain ⟨s, hs2, he⟩ := List.mem_map.mp hm
  simp only [scanOne] at he
  split at he
  · exact ScanEntry.noConfusion he
  · obtain ⟨ha, hf⟩ := ScanEntry.ok.inj he
    subst ha
    subst hf
    exact decide_eq_true_iff

/-- Witness for C2 at the concrete one-symbol world `wWorld`. -/
theorem flagged_iff_thresholds_witness :
    wFlag = true
      ↔ ((5000 : ℚ) ≤ (wAnalysis.callVolume : ℚ) ∧ (2 : ℚ) ≤ wAnalysis.ratio) :=
  flagged_iff_thresholds wWorld ["aapl"] none none (summarize [wEntry], [wEntry]) rfl
    wAnalysis wFlag (List.mem_singleton.mpr rfl)

/-- The summary block restates the counting reductions over `results`. -/
theorem summarize_fields (results : List ScanEntry) :
    (summarize results).totalScanned = results.length
    ∧ (summarize results).successfulScans = (results.filter entryIsOk).length
    ∧ (summarize results).flaggedCount
        = (results.filter fun r => entryIsOk r && entryFlagged r).length
    ∧ (results.filter entryIsOk = [] → (summarize results).avgRatio = 0)
    ∧ (results.filter entryIsOk ≠ [] → (summarize results).avgRatio
        = roundTo 2 (((results.filter entryIsOk).map entryRatio).sum
            / (((results.filter entryIsOk).length : ℚ)))) := by
  refine ⟨rfl, rfl, ?_, fun h => ?_, fun h => ?_⟩
  · show ((results.filter entryIsOk).filter entryFlagged).length = _
    rw [List.filter_filter]
    congr 1
    exact List.filter_congr fun x _ => Bool.and_comm _ _
  · show (if results.filter entryIsOk = [] then (0 : ℚ)
      else roundTo 2 (((results.filter entryIsOk).map entryRatio).sum
        / (((results.filter entryIsOk).length : ℚ)))) = 0
    rw [if_pos h]
  · show (if results.filter entryIsOk = [] then (0 : ℚ)
      else roundTo 2 (((results.filter entryIsOk).map entryRatio).sum
        / (((results.filter entryIsOk).length : ℚ))))
      = roundTo 2 (((results.filter entryIsOk).map entryRatio).sum
        / (((results.filter entryIsOk).length : ℚ)))
    rw [if_neg h]

/-- C3: the batch summary counts the results (`totalScanned`), the non-error
entries (`successfulScans`), the successful flagged entries (`flaggedCount`),
and `avgRatio` averages `ratio` over exactly the successful entries rounded
to 2 decimals, 0 when no entry succeeded. -/
theorem batch_summary_fields (world : String → Provider) (symbols : List String)
    (cvtOpt rvtOpt : Option ℚ) (summ : BatchSummary) (results : List ScanEntry)
    (h : scan_multiple world symbols cvtOpt rvtOpt = some (summ, results)) :
    summ.totalScanned = results.length
    ∧ summ.successfulScans = (results.filter entryIsOk).length
    ∧ summ.flaggedCount
        = (results.filter fun r => entryIsOk r && entryFlagged r).length
    ∧ (results.filter entryIsOk = [] → summ.avgRatio = 0)
    ∧ (results.filter entryIsOk ≠ [] → summ.avgRatio
        = roundTo 2 (((results.filter entryIsOk).map entryRatio).sum
            / (((results.filter entryIsOk).length : ℚ)))) := by
  unfold scan_multiple at h
  split_ifs at h with hs
  obtain ⟨h1, h2⟩ := Prod.mk.inj (Option.some.inj h)
  subst h2
  subst h1
  exact summarize_fields _

/-- Witness for C3 at the concrete one-symbol world `wWorld`. -/
theorem batch_summary_fields_witness :
    (summarize [wEntry]).totalScanned = [wEntry].length
    ∧ (summarize [wEntry]).successfulScans = ([wEntry].filter entryIsOk).length := by
  have h := batch_summary_fields wWorld ["aapl"] none none
    (summarize [wEntry]) [wEntry] rfl
  exact ⟨h.1, h.2.1⟩

/-! ## Stable top-strikes selection -/

theorem insertByVol_perm (r : OptionRecord) (l : List OptionRecord) :
    (insertByVol r l).Perm (r :: l) := by
  induction l with
  | nil => exact List.Perm.refl _
  | cons x xs ih =>
    unfold insertByVol
    split
    · exact List.Perm.refl _
    · exact (List.Perm.cons x ih).trans (List.Perm.swap r x xs)

theorem sortByVolDesc_perm (l : List OptionRecord) : (sortByVolDesc l).Perm l := by
  induction l with
  | nil => exact List.Perm.refl _
  | cons x xs ih =>
    exact (insertByVol_perm x (sortByVolDesc xs)).trans (List.Perm.cons x ih)

theorem insertByVol_pairwise (r : OptionRecord) (l : List OptionRecord)
    (h : l.Pairwise fun a b => volKey b ≤ volKey a) :
    (insertByVol r l).Pairwise fun a b => volKey b ≤ volKey a := by
  induction l with
  | nil => simp [insertByVol]
  | cons x xs ih =>
    obtain ⟨hx, hxs⟩ := List.pairwise_cons.mp h
    unfold insertByVol
    split
    · rename_i hc
      refine List.pairwise_cons.mpr ⟨?_, h⟩
      intro b hb
      rcases List.mem_cons.mp hb with hb | hb
      · rw [hb]
        exact hc
      · exact le_trans (hx b hb) hc
    · rename_i hc
      refine List.pairwise_cons.mpr ⟨?_, ih hxs⟩
      intro b hb
      have hb2 : b ∈ r :: xs := (insertByVol_perm r xs).mem_iff.mp hb
      rcases List.mem_cons.mp hb2 with hb2 | hb2
      · subst hb2
        omega
      · exact hx b hb2

theorem sortByVolDesc_pairwise (l : List OptionRecord) :
    (sortByVolDesc l).Pairwise fun a b => volKey b ≤ volKey a := by
  induction l with
  | nil => simp [sortByVolDesc]
  | cons x xs ih => exact insertByVol_pairwise x _ ih

theorem insertByVol_filter (r : OptionRecord) (l : List OptionRecord) (v : ℕ) :
    (insertByVol r l).filter (fun x => volKey x = v)
      = (if volKey r = v then [r] else [])
        ++ l.filter (fun x => volKey x = v) := by
  induction l with
  | nil =>
    show [r].filter (fun x => volKey x = v) = _
    by_cases hr : volKey r = v
    · simp [List.filter, hr]
    · simp [List.filter, hr]
  | cons x xs ih =>
    unfold insertByVol
    split
    · rename_i hc
      by_cases hr : volKey r = v <;> simp [List.filter_cons, hr]
    · rename_i hc
      by_cases hx : volKey x = v
      · have hr : ¬ volKey r = v := by omega
        simp [List.filter_cons, hx, hr, ih]
      · simp [List.filter_cons, hx, ih]

theorem sortByVolDesc_filter (l : List OptionRecord) (v : ℕ) :
    (sortByVolDesc l).filter (fun x => volKey x = v)
      = l.filter (fun x => volKey x = v) := by
  induction l with
  | nil => rfl
  | cons x xs ih =>
    show (insertByVol x (sortByVolDesc xs)).filter _ = _
    rw [insertByVol_filter, ih, List.filter_cons]
    by_cases hx : volKey x = v
    · simp [hx]
    · simp [hx]

/-- The filtered prefix of a list is a prefix of the filtered list. -/
theorem filter_take_eq_take_filter {α : Type} (p : α → Bool) (l : List α) (n : ℕ) :
    ∃ m, (l.take n).filter p = (l.filter p).take m := by
  refine ⟨((l.take n).filter p).length, ?_⟩
  have h : l.filter p = (l.take n).filter p ++ (l.drop n).filter p := by
    rw [← List.filter_append, List.take_append_drop]
  rw [h, List.take_left]

/-- The present-volume and missing-volume rows partition the input. -/
theorem length_filter_isSome_partition (l : List OptionRecord) :
    (l.filter fun r => r.volume.isSome).length
      + (l.filter fun r => !r.volume.isSome).length = l.length := by
  have h : l.length = (l.filter fun r => r.volume.isSome).length
      + (l.filter fun r => !r.volume.isSome).length :=
    List.length_eq_length_filter_add (fun r : OptionRecord => r.volume.isSome)
  omega

/-- Stability at the record level: for each volume value, any prefix of the
sorted present rows keeps a prefix of the input's equal-volume rows. -/
theorem sorted_take_filter_stable (l : List OptionRecord) (v n : ℕ) :
    ∃ m, (((sortByVolDesc (l.filter fun r => r.volume.isSome)).take n).filter
        fun r => r.volume = some v)
      = (l.filter fun r => r.volume = some v).take m := by
  obtain ⟨m, hm⟩ := filter_take_eq_take_filter
    (fun r : OptionRecord => decide (volKey r = v))
    (sortByVolDesc (l.filter fun r => r.volume.isSome)) n
  refine ⟨m, ?_⟩
  have hB : ((sortByVolDesc (l.filter fun r => r.volume.isSome)).take n).filter
        (fun r => r.volume = some v)
      = ((sortByVolDesc (l.filter fun r => r.volume.isSome)).take n).filter
        (fun r => volKey r = v) := by
    refine List.filter_congr ?_
    intro x hx
    have hx2 : x ∈ l.filter fun r => r.volume.isSome :=
      (sortByVolDesc_perm _).mem_iff.mp ((List.take_sublist _ _).subset hx)
    have hx3 := (List.mem_filter.mp hx2).2
    cases hvx : x.volume with
    | none => simp [hvx] at hx3
    | some w => simp [volKey, hvx]
  have hE : (l.filter fun r => r.volume.isSome).filter (fun r => volKey r = v)
      = l.filter fun r => r.volume = some v := by
    rw [List.filter_filter]
    refine List.filter_congr ?_
    intro x _
    cases hvx : x.volume with
    | none => simp [volKey, hvx]
    | some w => simp [volKey, hvx]
  rw [hB, hm, sortByVolDesc_filter, hE]

/-- Every missing-volume row has NaN-as-0 volume key 0. -/
theorem volKey_of_missing (l : List OptionRecord) :
    ∀ b ∈ l.filter fun r => !r.volume.isSome, volKey b = 0 := by
  intro b hb
  have hb2 := (List.mem_filter.mp hb).2
  cases hvb : b.volume with
  | none => simp [volKey, hvb]
  | some w => rw [hvb] at hb2; simp at hb2

/-- The four properties of the `nlargest`-by-volume selection: its length is
the present-volume row count when the input has at most 5 rows and exactly 5
otherwise (NaN padding), it is descending in NaN-as-0 volume, each entry
projects a row of the input, and for each volume value the selection keeps a
prefix of the input's equal-volume rows (stability). -/
theorem nlargestByVolume_spec (l : List OptionRecord) :
    ((nlargestByVolume 5 l).length
        = if l.length ≤ 5 then (l.filter fun r => r.volume.isSome).length else 5)
    ∧ ((nlargestByVolume 5 l).Pairwise fun a b =>
        b.volume.getD 0 ≤ a.volume.getD 0)
    ∧ (∀ t ∈ nlargestByVolume 5 l, ∃ r ∈ l, t = projTopStrike r)
    ∧ (∀ v : ℕ, ∃ m, ((nlargestByVolume 5 l).filter fun t => t.volume = some v)
        = ((l.filter fun r => r.volume = some v).map projTopStrike).take m) := by
  by_cases hlen : l.length ≤ 5
  · simp only [nlargestByVolume, if_pos hlen]
    refine ⟨?_, ?_, ?_, ?_⟩
    · rw [List.length_map, (sortByVolDesc_perm _).length_eq]
    · exact List.pairwise_map.mpr (sortByVolDesc_pairwise _)
    · intro t ht
      obtain ⟨r, hr, hrt⟩ := List.mem_map.mp ht
      refine ⟨r, ?_, hrt.symm⟩
      exact (List.mem_filter.mp ((sortByVolDesc_perm _).mem_iff.mp hr)).1
    · intro v
      obtain ⟨m, hm⟩ := sorted_take_filter_stable l v
        (sortByVolDesc (l.filter fun r => r.volume.isSome)).length
      rw [List.take_length] at hm
      refine ⟨m, ?_⟩
      rw [List.filter_map]
      have hcomp : (((fun t : TopStrike => decide (t.volume = some v)))
            ∘ projTopStrike)
          = fun r : OptionRecord => decide (r.volume = some v) := rfl
      rw [hcomp, hm, List.map_take]
  · simp only [nlargestByVolume, if_neg hlen]
    refine ⟨?_, ?_, ?_, ?_⟩
    · rw [List.length_map, List.length_take, List.length_append,
        (sortByVolDesc_perm _).length_eq, inf_eq_min]
      have hpart := length_filter_isSome_partition l
      omega
    · refine List.pairwise_map.mpr ?_
      refine List.Pairwise.sublist (List.take_sublist _ _) ?_
      refine List.pairwise_append.mpr
        ⟨sortByVolDesc_pairwise _, ?_, ?_⟩
      · refine List.pairwise_of_forall_mem_list ?_
        intro a _ b hb
        show volKey b ≤ volKey a
        rw [volKey_of_missing l b hb]
        exact Nat.zero_le _
      · intro a _ b hb
        show volKey b ≤ volKey a
        rw [volKey_of_missing l b hb]
        exact Nat.zero_le _
    · intro t ht
      obtain ⟨r, hr, hrt⟩ := List.mem_map.mp ht
      refine ⟨r, ?_, hrt.symm⟩
      have hr2 := (List.take_sublist _ _).subset hr
      rcases List.mem_append.mp hr2 with h | h
      · exact (List.mem_filter.mp ((sortByVolDesc_perm _).mem_iff.mp h)).1
      · exact (List.mem_filter.mp h).1
    · intro v
      obtain ⟨m, hm⟩ := sorted_take_filter_stable l v 5
      refine ⟨m, ?_⟩
      rw [List.filter_map]
      have hcomp : (((fun t : TopStrike => decide (t.volume = some v)))
            ∘ projTopStrike)
          = fun r : OptionRecord => decide (r.volume = some v) := rfl
      rw [hcomp, List.take_append_eq_append_take, List.filter_append]
      have hMnil : ((l.filter fun r => !r.volume.isSome).take
            (5 - (sortByVolDesc (l.filter fun r => r.volume.isSome)).length)).filter
          (fun r => r.volume = some v) = [] := by
        rw [List.filter_eq_nil_iff]
        intro a ha
        have ha2 := volKey_of_missing l a ((List.take_sublist _ _).subset ha)
        have ha3 := (List.mem_filter.mp ((List.take_sublist _ _).subset ha)).2
        cases hva : a.volume with
        | none => simp [hva]
        | some w => rw [hva] at ha3; simp at ha3
      rw [hMnil, List.append_nil, hm, List.map_take]

/-- C5 (amended): `topCallStrikes` has length equal to the number of call
rows with present volume when `|calls| ≤ 5`, and exactly 5 otherwise —
pandas `nlargest(5)` drops NaN-volume rows outright only when the frame has
at most 5 rows, and with more rows pads the tail with the NaN-volume rows,
in original order, to length 5 — it is sorted descending by NaN-as-0
volume, stable on ties (for each present volume value it keeps a prefix of
the equal-volume rows in original order), and each entry is the
`{strike, volume, openInterest, lastPrice, expiration}` projection of an
input row; the same holds for `topPutStrikes` over puts. -/
theorem top_strikes_spec (sym : String) (d : ChainSnapshot) :
    ((analyze_options sym d).topCallStrikes.length
        = if d.calls.length ≤ 5
          then (d.calls.filter fun r => r.volume.isSome).length else 5)
    ∧ ((analyze_options sym d).topCallStrikes.Pairwise fun a b =>
        b.volume.getD 0 ≤ a.volume.getD 0)
    ∧ (∀ t ∈ (analyze_options sym d).topCallStrikes,
        ∃ r ∈ d.calls, t = projTopStrike r)
    ∧ (∀ v : ℕ, ∃ m, ((analyze_options sym d).topCallStrikes.filter
          fun t => t.volume = some v)
        = ((d.calls.filter fun r => r.volume = some v).map projTopStrike).take m)
    ∧ ((analyze_options sym d).topPutStrikes.length
        = if d.puts.length ≤ 5
          then (d.puts.filter fun r => r.volume.isSome).length else 5)
    ∧ ((analyze_options sym d).topPutStrikes.Pairwise fun a b =>
        b.volume.getD 0 ≤ a.volume.getD 0)
    ∧ (∀ t ∈ (analyze_options sym d).topPutStrikes,
        ∃ r ∈ d.puts, t = projTopStrike r)
    ∧ (∀ v : ℕ, ∃ m, ((analyze_options sym d).topPutStrikes.filter
          fun t => t.volume = some v)
        = ((d.puts.filter fun r => r.volume = some v).map projTopStrike).take m) := by
  simp only [topCallStrikes_eq, topPutStrikes_eq]
  obtain ⟨c1, c2, c3, c4⟩ := nlargestByVolume_spec d.calls
  obtain ⟨p1, p2, p3, p4⟩ := nlargestByVolume_spec d.puts
  exact ⟨c1, c2, c3, c4, p1, p2, p3, p4⟩

/-- C5 counterexample: `cexSnap`'s single call row has missing (NaN) volume,
so the `nlargest` selection drops it: `topCallStrikes` is empty although
`min(5, |calls|) = 1 ≠ 0`, refuting the claimed length `min(5, |calls|)`. -/
theorem top_strikes_length_cex :
    ¬ ((analyze_options "XYZ" cexSnap).topCallStrikes.length
        = min 5 cexSnap.calls.length) := by decide

end OptionsMonitor
